import Mathlib

/-!
Verification of the pyscsi Device Session (`pyscsi/pyscsi/scsi_device.py`)
and of the bit-field codec used by the command classes.

The Device Session is embedded shallowly: the external `linux_sgio`
transport and the `os.stat` identity probe are modelled as an oracle
record (`Transport`) holding the outcomes the real transport would
produce during one call, and Python exception propagation is modelled
with `Except`.  Every transport interaction is recorded as an event so
that ordering properties ("close before reopen", "validation happens
before the transport execute") can be stated.
-/

/-- Transfer-direction constants of the sgio transport
(`DXFER_NONE`, `DXFER_FROM_DEV`, `DXFER_TO_DEV`). -/
inductive Dxfer where
  | none
  | fromDev
  | toDev
deriving DecidableEq

/- Modelled from the spec: the status enumeration lives in
`scsi_enum_command.py`, outside the sources at hand.  `GOOD` is the
success code, `CHECK_CONDITION` the check-condition code, and
`SGIO_ERROR` the transport-failure code tested by `execute`; `BUSY` is
one of the further protocol status codes that the enumeration defines
but `execute` never mentions. -/
namespace SCSI_STATUS

def GOOD : Nat := 0x00

def CHECK_CONDITION : Nat := 0x02

def BUSY : Nat := 0x08

def SGIO_ERROR : Nat := 0xff

end SCSI_STATUS

/-- Error taxonomy of the Device Session, one constructor per raise
site of `scsi_device.py` (named as in the spec's taxonomy):
`notImplementedBackend` for the `NotImplementedError` in `__init__`,
`unsupportedTransfer` for the bidirectional-transfer raise in
`execute`, `checkCondition` for `self.CheckCondition(cmd.sense)`,
`sgioError` for `self.SCSISGIOError`, and `closeFail` / `openFail`
for exceptions escaping the transport's `close` / `open`. -/
inductive SCSIErr where
  | notImplementedBackend
  | unsupportedTransfer
  | checkCondition (sense : List Nat)
  | sgioError
  | closeFail
  | openFail
deriving DecidableEq

/-- Outcomes the external transport would produce during one session
call: the inode returned by the `get_inode` probe, whether
`linux_sgio.close` returns normally, the `(fd, inode)` recorded by a
successful `open` (`Option.none` models `open` raising), the status
code returned by `linux_sgio.execute`, and the bytes the transport
places into the envelope's `sense` and `datain` buffers. -/
structure Transport where
  probeIno : Nat
  closeOk : Bool
  openResult : Option (Nat × Nat)
  execStatus : Nat
  execSense : List Nat
  execDatain : List Nat

/-- State of a `SCSIDevice`: the bound path, the access mode, the
transport handle `_fd`, the recorded identity `_ino` (captured at open
time), and the `_detect_replugged` flag. -/
structure Device where
  fileName : String
  readWrite : Bool
  fd : Option Nat
  ino : Option Nat
  detectReplugged : Bool

/-- A command envelope as `execute` sees it: the packed `cdb` and the
`datain` / `dataout` / `sense` buffers. -/
structure Cmd where
  cdb : List Nat
  datain : List Nat
  dataout : List Nat
  sense : List Nat

/-- Transport interactions of one session call, in order. -/
inductive Ev where
  | closeAttempt
  | openAttempt
  | submit (dir : Dxfer)
deriving DecidableEq

namespace SCSIDevice

/-- Embedding of `SCSIDevice.__init__`: when the sgio backend is
available and the first five characters of the path are `/dev/` the
constructor calls `open` (which acquires a handle and records the
inode); otherwise it raises `NotImplementedError` without attempting
any open. -/
def init (hasSgio : Bool) (device : String) (readwrite : Bool)
    (detectReplugged : Bool) (t : Transport) :
    List Ev × Except SCSIErr Device :=
  if hasSgio = true ∧ device.take 5 = "/dev/" then
    match t.openResult with
    | some (fd, ino) =>
        ([Ev.openAttempt],
         Except.ok ⟨device, readwrite, some fd, some ino, detectReplugged⟩)
    | Option.none => ([Ev.openAttempt], Except.error SCSIErr.openFail)
  else
    ([], Except.error SCSIErr.notImplementedBackend)

/-- Embedding of the `try: self.close() finally: self.open()` block of
`execute`.  Python's try/finally always runs the finally block, so the
open is attempted whether or not close raised; if the open itself
raises, its exception propagates (replacing any close exception); if
the open returns normally and close had raised, the close exception is
re-raised after the finally block completes. -/
def replugRepair (d : Device) (t : Transport) :
    List Ev × Except SCSIErr Device :=
  match t.openResult with
  | Option.none => ([Ev.closeAttempt, Ev.openAttempt], Except.error SCSIErr.openFail)
  | some (fd, ino) =>
      if t.closeOk = true then
        ([Ev.closeAttempt, Ev.openAttempt],
         Except.ok { d with fd := some fd, ino := some ino })
      else
        ([Ev.closeAttempt, Ev.openAttempt], Except.error SCSIErr.closeFail)

/-- Embedding of `SCSIDevice.execute`: replug check and repair, the
bidirectional-transfer validation, direction selection, the transport
submit, and the status checks, in source order.  The returned event
list records the transport interactions in order. -/
def execute (d : Device) (t : Transport) (cmd : Cmd) :
    List Ev × Except SCSIErr (Device × Cmd) :=
  let repair :=
    if d.detectReplugged = true ∧ some t.probeIno ≠ d.ino then
      replugRepair d t
    else ([], Except.ok d)
  match repair with
  | (evs, Except.error e) => (evs, Except.error e)
  | (evs, Except.ok d') =>
      if cmd.datain.length ≠ 0 ∧ cmd.dataout.length ≠ 0 then
        (evs, Except.error SCSIErr.unsupportedTransfer)
      else
        let dir :=
          if cmd.datain.length ≠ 0 then Dxfer.fromDev
          else if cmd.dataout.length ≠ 0 then Dxfer.toDev
          else Dxfer.none
        let cmd' := { cmd with datain := t.execDatain, sense := t.execSense }
        if t.execStatus = SCSI_STATUS.CHECK_CONDITION then
          (evs ++ [Ev.submit dir], Except.error (SCSIErr.checkCondition cmd'.sense))
        else if t.execStatus = SCSI_STATUS.SGIO_ERROR then
          (evs ++ [Ev.submit dir], Except.error SCSIErr.sgioError)
        else
          (evs ++ [Ev.submit dir], Except.ok (d', cmd'))

end SCSIDevice

/-!
## Field Codec

The generic pack/unpack engine (`encode_dict` / `decode_bits` of the
converter module) is not among the sources at hand — only its callers
(the command classes) and its tests are — so it is modelled from the
spec here.  A Field Layout is a list of `(name, bit-mask, byte-offset)`
triples; all integers are `Nat`, a buffer is a `List Nat` of byte
values.
-/

/-- Modelled from the spec: the right-shift a mask implies, i.e. the
number of trailing zero bits of the mask (0 for a zero mask).  Written
with structural fuel so that it evaluates by kernel reduction; the
fuel `m` is enough since the argument halves at each step. -/
def maskShiftAux : Nat → Nat → Nat
  | 0, _ => 0
  | fuel + 1, m => if m % 2 = 1 ∨ m = 0 then 0 else maskShiftAux fuel (m / 2) + 1

/-- Trailing-zero count of a mask. -/
def maskShift (m : Nat) : Nat := maskShiftAux m m

/-- Modelled from the spec: how many whole bytes a mask spans (a mask
of at most 0xff spans one byte, larger masks span one byte per further
factor of 256); fuel as in `maskShiftAux`. -/
def maskBytesAux : Nat → Nat → Nat
  | 0, _ => 1
  | fuel + 1, m => if m ≤ 0xff then 1 else maskBytesAux fuel (m / 256) + 1

/-- Byte span of a mask. -/
def maskBytes (m : Nat) : Nat := maskBytesAux m m

/-- Big-endian byte encoding of `v` on `n` bytes (most-significant
byte first, the wire convention of the protocol family). -/
def intToBa (v : Nat) : Nat → List Nat
  | 0 => []
  | n + 1 => v / 256 ^ n % 256 :: intToBa v n

/-- Big-endian byte decoding: value of a byte list read
most-significant byte first. -/
def baToInt : List Nat → Nat
  | [] => 0
  | b :: bs => b * 256 ^ bs.length + baToInt bs

/-- OR the byte list `xs` into `buf` starting at position `pos`,
leaving every other byte unchanged (positions past the end of `buf`
are dropped). -/
def orInto : List Nat → Nat → List Nat → List Nat
  | buf, _, [] => buf
  | [], _, _ => []
  | b :: bs, 0, x :: xs => (b ||| x) :: orInto bs 0 xs
  | b :: bs, pos + 1, xs => b :: orInto bs pos xs

/-- Modelled from the spec: pack one field — the value is masked to
the field's bit-width, shifted to the field's bit position, split into
big-endian bytes spanning the mask, and OR-combined into the target
bytes of the buffer. -/
def packField (mask off v : Nat) (buf : List Nat) : List Nat :=
  orInto buf off
    (intToBa ((v &&& (mask >>> maskShift mask)) <<< maskShift mask) (maskBytes mask))

/-- Lookup in an association list with a default (absent fields
default to value 0 when packing). -/
def lookupD : List (String × Nat) → String → Nat → Nat
  | [], _, d => d
  | (k, v) :: rest, key, d => if k = key then v else lookupD rest key d

/-- Modelled from the spec: `Pack(layout, values, out_buffer)` — every
field of the layout is written into the buffer, absent fields as 0. -/
def Pack (layout : List (String × Nat × Nat)) (values : List (String × Nat))
    (buf : List Nat) : List Nat :=
  layout.foldl (fun b f => packField f.2.1 f.2.2 (lookupD values f.1 0) b) buf

/-- Modelled from the spec: extract one field — read the mask's byte
span big-endian, apply the mask, and right-shift into canonical
position. -/
def unpackField (mask off : Nat) (buf : List Nat) : Nat :=
  (baToInt ((buf.drop off).take (maskBytes mask)) &&& mask) >>> maskShift mask

/-- Modelled from the spec: `Unpack(layout, in_buffer)` — the mapping
from each field name to its extracted value. -/
def Unpack (layout : List (String × Nat × Nat)) (buf : List Nat) :
    List (String × Nat) :=
  layout.map (fun f => (f.1, unpackField f.2.1 f.2.2 buf))

/-- The `_cdb_bits` layout of `PositionToElement`
(`scsi_cdb_positiontoelement.py`). -/
def PositionToElement.cdbBits : List (String × Nat × Nat) :=
  [("opcode", 0xff, 0),
   ("medium_transport_address", 0xffff, 2),
   ("destination_address", 0xffff, 4),
   ("invert", 0x01, 8)]

/-- The field values of the spec's end-to-end scenario (a
`PositionToElement` command with opcode 0x2B, transport address 0x10,
destination 0x20, invert 1). -/
def PositionToElement.scenarioValues : List (String × Nat) :=
  [("opcode", 0x2B),
   ("medium_transport_address", 0x0010),
   ("destination_address", 0x0020),
   ("invert", 1)]

/-! ## Device Session claims -/

/-- C3: an envelope whose `datain` and `dataout` are both non-empty is
rejected with `UnsupportedTransferError`, and the transport's execute
is never invoked for it (no submit event occurs).  The replug-repair
hypothesis `hrep` states that the repair phase, when it runs, does not
itself abort the call. -/
theorem c3_bidirectional_rejected_before_transport
    (d : Device) (t : Transport) (cmd : Cmd)
    (hin : cmd.datain ≠ []) (hout : cmd.dataout ≠ [])
    (hrep : d.detectReplugged = true ∧ some t.probeIno ≠ d.ino →
      t.closeOk = true ∧ t.openResult.isSome) :
    (SCSIDevice.execute d t cmd).2 = Except.error SCSIErr.unsupportedTransfer ∧
      ∀ dir, Ev.submit dir ∉ (SCSIDevice.execute d t cmd).1 := by
  unfold SCSIDevice.execute
  by_cases h : d.detectReplugged = true ∧ some t.probeIno ≠ d.ino
  · obtain ⟨hc, ho⟩ := hrep h
    obtain ⟨⟨fd, ino⟩, hsome⟩ := Option.isSome_iff_exists.mp ho
    simp only [h, if_true, SCSIDevice.replugRepair, hsome, hc, if_pos]
    have hlen : cmd.datain.length ≠ 0 ∧ cmd.dataout.length ≠ 0 := by
      constructor <;> simp [List.length_eq_zero, hin, hout]
    simp [hlen, h.2]
  · simp only [h, if_false]
    have hlen : cmd.datain.length ≠ 0 ∧ cmd.dataout.length ≠ 0 := by
      constructor <;> simp [List.length_eq_zero, hin, hout]
    simp [hlen]

/-- C3 witness: a concrete bidirectional envelope is rejected without
any transport submit. -/
theorem c3_witness :
    (SCSIDevice.execute ⟨"/dev/sg0", false, some 3, some 7, false⟩
        ⟨7, true, some (3, 7), 0, [], []⟩ ⟨[0x12], [1], [2], []⟩).2
      = Except.error SCSIErr.unsupportedTransfer ∧
    ∀ dir, Ev.submit dir ∉
      (SCSIDevice.execute ⟨"/dev/sg0", false, some 3, some 7, false⟩
        ⟨7, true, some (3, 7), 0, [], []⟩ ⟨[0x12], [1], [2], []⟩).1 :=
  c3_bidirectional_rejected_before_transport _ _ _
    (by decide) (by decide) (by decide)

/-- C7: a check-condition status makes `execute` fail with
`CheckConditionError` carrying exactly the sense bytes the transport
placed in the envelope's sense buffer. -/
theorem c7_check_condition_carries_sense
    (d : Device) (t : Transport) (cmd : Cmd)
    (hrep : d.detectReplugged = true ∧ some t.probeIno ≠ d.ino →
      t.closeOk = true ∧ t.openResult.isSome)
    (hnotboth : cmd.datain = [] ∨ cmd.dataout = [])
    (hstatus : t.execStatus = SCSI_STATUS.CHECK_CONDITION) :
    (SCSIDevice.execute d t cmd).2
      = Except.error (SCSIErr.checkCondition t.execSense) := by
  unfold SCSIDevice.execute
  by_cases h : d.detectReplugged = true ∧ some t.probeIno ≠ d.ino
  · obtain ⟨hc, ho⟩ := hrep h
    obtain ⟨⟨fd, ino⟩, hsome⟩ := Option.isSome_iff_exists.mp ho
    rcases hnotboth with h' | h' <;>
      simp [h, SCSIDevice.replugRepair, hsome, hc, h.2, h', hstatus]
  · rcases hnotboth with h' | h' <;> simp [h, h', hstatus]

/-- C7 witness: a concrete check-condition run carries the transport's
sense bytes. -/
theorem c7_witness :
    (SCSIDevice.execute ⟨"/dev/sg0", false, some 3, some 7, false⟩
        ⟨7, true, some (3, 7), SCSI_STATUS.CHECK_CONDITION, [0x70, 0x05], []⟩
        ⟨[0x12], [], [], []⟩).2
      = Except.error (SCSIErr.checkCondition [0x70, 0x05]) :=
  c7_check_condition_carries_sense _ _ _
    (by decide) (Or.inl (by decide)) (by decide)

/-- C8: the direction submitted to the transport is `DXFER_NONE` when
both buffers are empty, `DXFER_FROM_DEV` when `datain` is non-empty,
and `DXFER_TO_DEV` when `dataout` is non-empty. -/
theorem c8_transfer_direction
    (d : Device) (t : Transport) (cmd : Cmd)
    (hrep : d.detectReplugged = true ∧ some t.probeIno ≠ d.ino →
      t.closeOk = true ∧ t.openResult.isSome)
    (hnotboth : cmd.datain = [] ∨ cmd.dataout = []) :
    (cmd.datain = [] → cmd.dataout = [] →
        Ev.submit Dxfer.none ∈ (SCSIDevice.execute d t cmd).1) ∧
    (cmd.datain ≠ [] → Ev.submit Dxfer.fromDev ∈ (SCSIDevice.execute d t cmd).1) ∧
    (cmd.dataout ≠ [] → Ev.submit Dxfer.toDev ∈ (SCSIDevice.execute d t cmd).1) := by
  unfold SCSIDevice.execute
  by_cases h : d.detectReplugged = true ∧ some t.probeIno ≠ d.ino
  · obtain ⟨hc, ho⟩ := hrep h
    obtain ⟨⟨fd, ino⟩, hsome⟩ := Option.isSome_iff_exists.mp ho
    by_cases hdi : cmd.datain = [] <;> by_cases hdo : cmd.dataout = [] <;>
      simp [h, SCSIDevice.replugRepair, hsome, hc, h.2, hdi, hdo,
        apply_ite Prod.fst] <;> simp_all
  · by_cases hdi : cmd.datain = [] <;> by_cases hdo : cmd.dataout = [] <;>
      simp [h, hdi, hdo, apply_ite Prod.fst] <;> simp_all

/-- C8 witness: a concrete device-to-caller envelope is submitted with
direction `DXFER_FROM_DEV`. -/
theorem c8_witness :
    (([0xaa] : List Nat) = [] → ([] : List Nat) = [] →
        Ev.submit Dxfer.none ∈
          (SCSIDevice.execute ⟨"/dev/sg0", false, some 3, some 7, false⟩
            ⟨7, true, some (3, 7), 0, [], []⟩ ⟨[0x12], [0xaa], [], []⟩).1) ∧
    (([0xaa] : List Nat) ≠ [] → Ev.submit Dxfer.fromDev ∈
        (SCSIDevice.execute ⟨"/dev/sg0", false, some 3, some 7, false⟩
          ⟨7, true, some (3, 7), 0, [], []⟩ ⟨[0x12], [0xaa], [], []⟩).1) ∧
    (([] : List Nat) ≠ [] → Ev.submit Dxfer.toDev ∈
        (SCSIDevice.execute ⟨"/dev/sg0", false, some 3, some 7, false⟩
          ⟨7, true, some (3, 7), 0, [], []⟩ ⟨[0x12], [0xaa], [], []⟩).1) := by
  exact c8_transfer_direction ⟨"/dev/sg0", false, some 3, some 7, false⟩
    ⟨7, true, some (3, 7), 0, [], []⟩ ⟨[0x12], [0xaa], [], []⟩
    (by decide) (Or.inr (by decide))

/-- C6: when replug detection is on and the recorded identity differs
from the live probe, the event trace of `execute` starts with exactly
one close attempt followed by exactly one reopen attempt (so both
precede any submit), and this holds for every close outcome. -/
theorem c6_replug_repair_close_then_open
    (d : Device) (t : Transport) (cmd : Cmd)
    (hdet : d.detectReplugged = true) (hino : some t.probeIno ≠ d.ino) :
    (SCSIDevice.execute d t cmd).1.take 2 = [Ev.closeAttempt, Ev.openAttempt] ∧
    (SCSIDevice.execute d t cmd).1.count Ev.closeAttempt = 1 ∧
    (SCSIDevice.execute d t cmd).1.count Ev.openAttempt = 1 := by
  unfold SCSIDevice.execute SCSIDevice.replugRepair
  have h : d.detectReplugged = true ∧ some t.probeIno ≠ d.ino := ⟨hdet, hino⟩
  rcases hop : t.openResult with _ | ⟨fd, ino⟩
  · simp [h, hop]
  · rcases hc : t.closeOk with _ | _
    · simp [h, hop, hc]
    · by_cases hv : cmd.datain.length ≠ 0 ∧ cmd.dataout.length ≠ 0
      · simp [h, hop, hc, hv]
      · simp [h, hop, hc, hv, apply_ite Prod.fst, apply_ite (List.take 2),
          apply_ite (List.count Ev.closeAttempt), apply_ite (List.count Ev.openAttempt),
          List.count_append, List.count_singleton]

/-- C6 witness: a concrete replugged session whose close attempt
raises still shows one close attempt followed by one reopen attempt. -/
theorem c6_witness :
    (SCSIDevice.execute ⟨"/dev/sg0", false, some 3, some 7, true⟩
        ⟨8, false, some (4, 8), 0, [], []⟩ ⟨[0x12], [], [], []⟩).1.take 2
      = [Ev.closeAttempt, Ev.openAttempt] ∧
    (SCSIDevice.execute ⟨"/dev/sg0", false, some 3, some 7, true⟩
        ⟨8, false, some (4, 8), 0, [], []⟩ ⟨[0x12], [], [], []⟩).1.count
        Ev.closeAttempt = 1 ∧
    (SCSIDevice.execute ⟨"/dev/sg0", false, some 3, some 7, true⟩
        ⟨8, false, some (4, 8), 0, [], []⟩ ⟨[0x12], [], [], []⟩).1.count
        Ev.openAttempt = 1 :=
  c6_replug_repair_close_then_open _ _ _ (by decide) (by decide)

/-- C1 counterexample: the status code `BUSY` (0x08) is neither the
success code nor the check-condition code, yet `execute` accepts it
silently and returns normally instead of failing with a
transport-level error. -/
theorem c1_unknown_status_accepted_silently :
    SCSI_STATUS.BUSY ≠ SCSI_STATUS.GOOD ∧
    SCSI_STATUS.BUSY ≠ SCSI_STATUS.CHECK_CONDITION ∧
    (SCSIDevice.execute ⟨"/dev/sg0", false, some 3, some 7, true⟩
        ⟨7, true, some (3, 7), SCSI_STATUS.BUSY, [], []⟩ ⟨[0x12], [], [], []⟩).2
      = Except.ok (⟨"/dev/sg0", false, some 3, some 7, true⟩, ⟨[0x12], [], [], []⟩) :=
  ⟨by decide, by decide, rfl⟩

/-- C1 amended: `execute` raises a transport-level error only for the
specific status code `SGIO_ERROR` (0xff); every status other than
`CHECK_CONDITION` and `SGIO_ERROR` — recognized or not, such as
`BUSY` — is accepted silently and `execute` returns normally. -/
theorem c1_amended_only_sgio_error_is_transport_failure
    (d : Device) (t : Transport) (cmd : Cmd)
    (hrep : d.detectReplugged = true ∧ some t.probeIno ≠ d.ino →
      t.closeOk = true ∧ t.openResult.isSome)
    (hnotboth : cmd.datain = [] ∨ cmd.dataout = [])
    (hcc : t.execStatus ≠ SCSI_STATUS.CHECK_CONDITION)
    (hsg : t.execStatus ≠ SCSI_STATUS.SGIO_ERROR) :
    ∃ r, (SCSIDevice.execute d t cmd).2 = Except.ok r := by
  unfold SCSIDevice.execute
  by_cases h : d.detectReplugged = true ∧ some t.probeIno ≠ d.ino
  · obtain ⟨hc, ho⟩ := hrep h
    obtain ⟨⟨fd, ino⟩, hsome⟩ := Option.isSome_iff_exists.mp ho
    rcases hnotboth with h' | h' <;>
      simp [h, SCSIDevice.replugRepair, hsome, hc, h.2, h', hcc, hsg]
  · rcases hnotboth with h' | h' <;> simp [h, h', hcc, hsg]

/-- C1 amended witness: a concrete run with the unrecognized status
`BUSY` returns normally. -/
theorem c1_amended_witness :
    ∃ r, (SCSIDevice.execute ⟨"/dev/sg0", false, some 3, some 7, false⟩
        ⟨7, true, some (3, 7), SCSI_STATUS.BUSY, [], []⟩ ⟨[0x12], [], [], []⟩).2
      = Except.ok r :=
  c1_amended_only_sgio_error_is_transport_failure _ _ _
    (by decide) (Or.inl (by decide)) (by decide) (by decide)

/-- C2 counterexample: with a replugged device, a close attempt that
raises, and a reopen that succeeds, `execute` does not proceed to
submit the command: the close failure is propagated to the caller
(Python's try/finally re-raises the close exception once the finally
block completes normally) and the trace holds no submit event. -/
theorem c2_close_failure_propagates :
    SCSIDevice.execute ⟨"/dev/sg0", false, some 3, some 7, true⟩
        ⟨8, false, some (4, 8), SCSI_STATUS.GOOD, [], []⟩ ⟨[0x12], [], [], []⟩
      = ([Ev.closeAttempt, Ev.openAttempt], Except.error SCSIErr.closeFail) := rfl

/-- C2 amended: when the recorded identity differs from the live
probe, the close step raises, and the subsequent reopen succeeds, the
reopen is still attempted, but the close failure is then propagated to
the caller: `execute` fails with the close error and never submits the
command. -/
theorem c2_amended_close_failure_propagated_after_reopen
    (d : Device) (t : Transport) (cmd : Cmd)
    (hdet : d.detectReplugged = true) (hino : some t.probeIno ≠ d.ino)
    (hclose : t.closeOk = false) (fd ino : Nat)
    (hopen : t.openResult = some (fd, ino)) :
    SCSIDevice.execute d t cmd
      = ([Ev.closeAttempt, Ev.openAttempt], Except.error SCSIErr.closeFail) := by
  have h : d.detectReplugged = true ∧ some t.probeIno ≠ d.ino := ⟨hdet, hino⟩
  unfold SCSIDevice.execute SCSIDevice.replugRepair
  simp [h, hopen, hclose]

/-- C2 amended witness: a concrete replugged run whose close raises
and whose reopen succeeds fails with the close error. -/
theorem c2_amended_witness :
    SCSIDevice.execute ⟨"/dev/sg0", false, some 3, some 7, true⟩
        ⟨8, false, some (4, 8), SCSI_STATUS.GOOD, [], []⟩ ⟨[0x13], [], [], []⟩
      = ([Ev.closeAttempt, Ev.openAttempt], Except.error SCSIErr.closeFail) :=
  c2_amended_close_failure_propagated_after_reopen _ _ _
    (by decide) (by decide) (by decide) 4 8 (by decide)

/-- C10: constructing a `SCSIDevice` for a path whose first five
characters are not `/dev/`, or without the sgio backend, raises
`NotImplementedError` and attempts no open. -/
theorem c10_init_non_dev_raises
    (hasSgio : Bool) (device : String) (readwrite detectReplugged : Bool)
    (t : Transport)
    (h : hasSgio = false ∨ device.take 5 ≠ "/dev/") :
    SCSIDevice.init hasSgio device readwrite detectReplugged t
      = ([], Except.error SCSIErr.notImplementedBackend) := by
  unfold SCSIDevice.init
  rcases h with h | h
  · simp [h]
  · rw [if_neg]
    intro hcontra
    exact h hcontra.2

/-- C10 witness: a concrete path outside `/dev/` is rejected with no
open attempt. -/
theorem c10_witness :
    ("sg0".take 5 ≠ "/dev/") ∧
    SCSIDevice.init true "sg0" false true ⟨0, true, some (0, 0), 0, [], []⟩
      = ([], Except.error SCSIErr.notImplementedBackend) :=
  ⟨by decide,
   c10_init_non_dev_raises true "sg0" false true _ (Or.inr (by decide))⟩

/-! ## Field Codec lemmas -/

theorem maskShiftAux_congr : ∀ f g m, m ≤ f → m ≤ g →
    maskShiftAux f m = maskShiftAux g m := by
  intro f
  induction f with
  | zero =>
      intro g m hf hg
      interval_cases m
      cases g <;> simp [maskShiftAux]
  | succ f ih =>
      intro g m hf hg
      cases g with
      | zero =>
          interval_cases m
          simp [maskShiftAux]
      | succ g =>
          simp only [maskShiftAux]
          by_cases h : m % 2 = 1 ∨ m = 0
          · simp [h]
          · push_neg at h
            have hm : m ≠ 0 := h.2
            have h2 : m / 2 ≤ f := by omega
            have h3 : m / 2 ≤ g := by omega
            simp [h, ih g (m / 2) h2 h3]

theorem maskShift_eq_of_le (f m : Nat) (h : m ≤ f) :
    maskShiftAux f m = maskShift m := maskShiftAux_congr f m m h (Nat.le_refl m)

theorem maskShift_odd (m : Nat) (h : m % 2 = 1) : maskShift m = 0 := by
  unfold maskShift
  cases m with
  | zero => omega
  | succ m => simp [maskShiftAux, h]

theorem maskShift_even (m : Nat) (h0 : m ≠ 0) (h2 : m % 2 = 0) :
    maskShift m = maskShift (m / 2) + 1 := by
  cases m with
  | zero => exact absurd rfl h0
  | succ m =>
      have hcond : ¬ ((m + 1) % 2 = 1 ∨ m + 1 = 0) := by omega
      have hstep : maskShift (m + 1) = maskShiftAux m ((m + 1) / 2) + 1 := by
        unfold maskShift
        rw [maskShiftAux, if_neg hcond]
      rw [hstep, maskShift_eq_of_le m ((m + 1) / 2) (by omega)]

theorem maskShift_mul_two_pow (k s : Nat) (hk : k % 2 = 1) :
    maskShift (k * 2 ^ s) = s := by
  induction s with
  | zero => simpa using maskShift_odd k hk
  | succ s ih =>
      have hne : k * 2 ^ (s + 1) ≠ 0 := by
        have h2 : 0 < 2 ^ (s + 1) := Nat.pos_pow_of_pos _ (by norm_num)
        exact Nat.mul_ne_zero (by omega) (by omega)
      have heven : k * 2 ^ (s + 1) % 2 = 0 := by
        have : 2 ∣ k * 2 ^ (s + 1) := ⟨k * 2 ^ s, by ring⟩
        omega
      rw [maskShift_even _ hne heven]
      have hdiv : k * 2 ^ (s + 1) / 2 = k * 2 ^ s := by
        rw [pow_succ, ← Nat.mul_assoc]
        exact Nat.mul_div_cancel _ (by norm_num)
      rw [hdiv, ih]

theorem maskBytesAux_congr : ∀ f g m, m ≤ f → m ≤ g →
    maskBytesAux f m = maskBytesAux g m := by
  intro f
  induction f with
  | zero =>
      intro g m hf hg
      interval_cases m
      cases g <;> simp [maskBytesAux]
  | succ f ih =>
      intro g m hf hg
      cases g with
      | zero =>
          interval_cases m
          simp [maskBytesAux]
      | succ g =>
          simp only [maskBytesAux]
          by_cases h : m ≤ 0xff
          · simp [h]
          · have h2 : m / 256 ≤ f := by omega
            have h3 : m / 256 ≤ g := by omega
            simp [h, ih g (m / 256) h2 h3]

theorem maskBytes_eq_of_le (f m : Nat) (h : m ≤ f) :
    maskBytesAux f m = maskBytes m := maskBytesAux_congr f m m h (Nat.le_refl m)

theorem maskBytes_small (m : Nat) (h : m ≤ 0xff) : maskBytes m = 1 := by
  unfold maskBytes
  cases m with
  | zero => rfl
  | succ m => simp [maskBytesAux, h]

theorem maskBytes_large (m : Nat) (h : ¬ m ≤ 0xff) :
    maskBytes m = maskBytes (m / 256) + 1 := by
  cases m with
  | zero => omega
  | succ m =>
      have hstep : maskBytes (m + 1) = maskBytesAux m ((m + 1) / 256) + 1 := by
        unfold maskBytes
        rw [maskBytesAux, if_neg h]
      rw [hstep, maskBytes_eq_of_le m ((m + 1) / 256) (by omega)]

theorem maskBytes_lt (m : Nat) : m < 256 ^ maskBytes m := by
  induction m using Nat.strong_induction_on with
  | _ m ih =>
      by_cases h : m ≤ 0xff
      · rw [maskBytes_small m h]
        norm_num
        omega
      · rw [maskBytes_large m h]
        have hlt : m / 256 < m := Nat.div_lt_self (by omega) (by norm_num)
        have := ih (m / 256) hlt
        have hmod := Nat.div_add_mod m 256
        have hm : m % 256 < 256 := Nat.mod_lt _ (by norm_num)
        calc m < 256 * (m / 256) + 256 := by omega
        _ ≤ 256 * (256 ^ maskBytes (m / 256) - 1) + 256 := by
              have : m / 256 ≤ 256 ^ maskBytes (m / 256) - 1 := by omega
              omega
        _ ≤ 256 ^ (maskBytes (m / 256) + 1) := by
              have hpos : 1 ≤ 256 ^ maskBytes (m / 256) := Nat.one_le_two_pow.trans (by
                exact Nat.pow_le_pow_left (by norm_num) _)
              rw [pow_succ]
              omega

theorem intToBa_length (v n : Nat) : (intToBa v n).length = n := by
  induction n with
  | zero => rfl
  | succ n ih => simp [intToBa, ih]

theorem intToBa_zero (n : Nat) : intToBa 0 n = List.replicate n 0 := by
  induction n with
  | zero => rfl
  | succ n ih => simp [intToBa, ih, List.replicate_succ]

theorem baToInt_intToBa (v n : Nat) : baToInt (intToBa v n) = v % 256 ^ n := by
  induction n with
  | zero => simp [intToBa, baToInt, Nat.mod_one]
  | succ n ih =>
      simp only [intToBa, baToInt, intToBa_length, ih]
      rw [pow_succ, Nat.mod_mul]
      ring

theorem orInto_nil (off : Nat) (xs : List Nat) : orInto [] off xs = [] := by
  cases xs <;> rfl

theorem orInto_nil_bytes (buf : List Nat) : ∀ off, orInto buf off [] = buf := by
  induction buf with
  | nil => intro off; cases off <;> simp [orInto]
  | cons b bs ih =>
      intro off
      cases off <;> simp [orInto, ih]

theorem orInto_zeros (buf : List Nat) : ∀ (off n : Nat),
    orInto buf off (List.replicate n 0) = buf := by
  induction buf with
  | nil => intro off n; rw [orInto_nil]
  | cons b bs ih =>
      intro off n
      cases n with
      | zero => rw [List.replicate_zero, orInto_nil_bytes]
      | succ n =>
          rw [List.replicate_succ]
          cases off with
          | zero => simp [orInto, ih]
          | succ off =>
              simp only [orInto]
              rw [← List.replicate_succ, ih]

theorem orInto_extract_zero : ∀ (xs : List Nat) (len : Nat), xs.length ≤ len →
    (orInto (List.replicate len 0) 0 xs).take xs.length = xs := by
  intro xs
  induction xs with
  | nil => intro len h; simp
  | cons x xs ih =>
      intro len h
      cases len with
      | zero => simp at h
      | succ len =>
          simp only [List.replicate_succ, orInto, Nat.zero_or, List.length_cons,
            List.take_succ_cons]
          rw [ih len (by simpa using h)]

theorem orInto_extract : ∀ (off len : Nat) (xs : List Nat),
    off + xs.length ≤ len →
    ((orInto (List.replicate len 0) off xs).drop off).take xs.length = xs := by
  intro off
  induction off with
  | zero =>
      intro len xs h
      rw [List.drop_zero]
      exact orInto_extract_zero xs len (by omega)
  | succ off ih =>
      intro len xs h
      cases len with
      | zero => omega
      | succ len =>
          cases xs with
          | nil => simp
          | cons x xs =>
              simp only [List.replicate_succ, orInto, List.drop_succ_cons]
              exact ih len (x :: xs) (by simp at h ⊢; omega)

theorem and_shiftLeft_distrib (a b s : Nat) :
    (a <<< s) &&& (b <<< s) = (a &&& b) <<< s := by
  apply Nat.eq_of_testBit_eq
  intro i
  simp only [Nat.testBit_and, Nat.testBit_shiftLeft]
  by_cases h : s ≤ i <;> simp [h]

theorem packField_zero (mask off : Nat) (buf : List Nat) :
    packField mask off 0 buf = buf := by
  unfold packField
  rw [Nat.zero_and, Nat.zero_shiftLeft, intToBa_zero, orInto_zeros]

theorem unpackField_packField (w s off v len : Nat) (hv : v < 2 ^ w)
    (hlen : off + maskBytes ((2 ^ w - 1) <<< s) ≤ len) :
    unpackField ((2 ^ w - 1) <<< s) off
      (packField ((2 ^ w - 1) <<< s) off v (List.replicate len 0)) = v := by
  rcases Nat.eq_zero_or_pos w with hw | hw
  · subst hw
    have hv0 : v = 0 := by simpa using hv
    subst hv0
    have hmask : (2 ^ 0 - 1) <<< s = 0 := by simp [Nat.shiftLeft_eq]
    rw [hmask, packField_zero]
    unfold unpackField
    simp [Nat.and_zero]
  · have hodd : (2 ^ w - 1) % 2 = 1 := by
      have hdvd : 2 ∣ 2 ^ w := dvd_pow_self 2 (by omega)
      have h2 : 2 ≤ 2 ^ w := by
        calc 2 = 2 ^ 1 := rfl
        _ ≤ 2 ^ w := Nat.pow_le_pow_right (by norm_num) hw
      omega
    have hsh : maskShift ((2 ^ w - 1) <<< s) = s := by
      rw [Nat.shiftLeft_eq]
      exact maskShift_mul_two_pow _ _ hodd
    have hmr : ((2 ^ w - 1) <<< s) >>> s = 2 ^ w - 1 := Nat.shiftLeft_shiftRight _ _
    have hmasked : v &&& (2 ^ w - 1) = v := by
      rw [Nat.and_pow_two_sub_one_eq_mod, Nat.mod_eq_of_lt hv]
    have hle : v <<< s ≤ (2 ^ w - 1) <<< s := by
      rw [Nat.shiftLeft_eq, Nat.shiftLeft_eq]
      exact Nat.mul_le_mul_right _ (by omega)
    have hPlt : v <<< s < 256 ^ maskBytes ((2 ^ w - 1) <<< s) :=
      Nat.lt_of_le_of_lt hle (maskBytes_lt _)
    have hex : ((orInto (List.replicate len 0) off
          (intToBa (v <<< s) (maskBytes ((2 ^ w - 1) <<< s)))).drop off).take
            (maskBytes ((2 ^ w - 1) <<< s))
        = intToBa (v <<< s) (maskBytes ((2 ^ w - 1) <<< s)) := by
      have h := orInto_extract off len
        (intToBa (v <<< s) (maskBytes ((2 ^ w - 1) <<< s)))
        (by rw [intToBa_length]; exact hlen)
      rwa [intToBa_length] at h
    unfold packField unpackField
    rw [hsh, hmr, hmasked, hex, baToInt_intToBa, Nat.mod_eq_of_lt hPlt]
    rw [← hmasked, and_shiftLeft_distrib, hmasked, Nat.shiftLeft_shiftRight]
    exact hmasked

theorem pack_not_mem (name : String) (v : Nat) :
    ∀ (L : List (String × Nat × Nat)) (buf : List Nat),
    name ∉ L.map (fun f => f.1) → Pack L [(name, v)] buf = buf := by
  intro L
  induction L with
  | nil => intro buf _; rfl
  | cons f rest ih =>
      intro buf h
      obtain ⟨n', m', o'⟩ := f
      simp only [List.map_cons, List.mem_cons] at h
      push_neg at h
      have hlk : lookupD [(name, v)] n' 0 = 0 := by
        simp only [lookupD]
        rw [if_neg h.1]
      unfold Pack
      rw [List.foldl_cons]
      simp only [hlk, packField_zero]
      exact ih buf h.2

theorem pack_single (name : String) (mask off v : Nat) :
    ∀ (L : List (String × Nat × Nat)) (buf : List Nat),
    (L.map (fun f => f.1)).Nodup → (name, mask, off) ∈ L →
    Pack L [(name, v)] buf = packField mask off v buf := by
  intro L
  induction L with
  | nil => intro buf _ hmem; simp at hmem
  | cons f rest ih =>
      intro buf hnd hmem
      obtain ⟨n', m', o'⟩ := f
      simp only [List.map_cons, List.nodup_cons] at hnd
      rcases List.mem_cons.mp hmem with heq | hrest
      · obtain ⟨rfl, rfl, rfl⟩ : name = n' ∧ mask = m' ∧ off = o' := by
          simpa [Prod.ext_iff] using heq
        have hlk : lookupD [(name, v)] name 0 = v := by
          simp [lookupD]
        unfold Pack
        rw [List.foldl_cons]
        simp only [hlk]
        exact pack_not_mem name v rest _ hnd.1
      · have hmemkey : name ∈ rest.map (fun f => f.1) := by
          exact List.mem_map.mpr ⟨(name, mask, off), hrest, rfl⟩
        have hne : name ≠ n' := fun hc => hnd.1 (hc ▸ hmemkey)
        have hlk : lookupD [(name, v)] n' 0 = 0 := by
          simp only [lookupD]
          rw [if_neg hne]
        unfold Pack
        rw [List.foldl_cons]
        simp only [hlk, packField_zero]
        exact ih buf hnd.2 hrest

theorem unpack_lookup (name : String) (mask off : Nat) :
    ∀ (L : List (String × Nat × Nat)) (buf : List Nat),
    (L.map (fun f => f.1)).Nodup → (name, mask, off) ∈ L →
    lookupD (Unpack L buf) name 0 = unpackField mask off buf := by
  intro L
  induction L with
  | nil => intro buf _ hmem; simp at hmem
  | cons f rest ih =>
      intro buf hnd hmem
      obtain ⟨n', m', o'⟩ := f
      simp only [List.map_cons, List.nodup_cons] at hnd
      rcases List.mem_cons.mp hmem with heq | hrest
      · obtain ⟨rfl, rfl, rfl⟩ : name = n' ∧ mask = m' ∧ off = o' := by
          simpa [Prod.ext_iff] using heq
        simp [Unpack, lookupD]
      · have hmemkey : name ∈ rest.map (fun f => f.1) := by
          exact List.mem_map.mpr ⟨(name, mask, off), hrest, rfl⟩
        have hne : name ≠ n' := fun hc => hnd.1 (hc ▸ hmemkey)
        simp only [Unpack, List.map_cons, lookupD]
        rw [if_neg (Ne.symm hne)]
        exact ih buf hnd.2 hrest

/-! ## Field Codec claims -/

/-- C4: for every layout with distinct field names, every field in it
whose mask is a contiguous run of `w` bits shifted left by `s`, and
every value `v` that fits in the field's `w`-bit width, packing `v`
alone into a zero buffer that covers the field and unpacking it again
returns `v` exactly — including for multi-byte fields straddling byte
boundaries under big-endian byte order. -/
theorem c4_unpack_pack_roundtrip
    (layout : List (String × Nat × Nat)) (name : String)
    (w s off v len : Nat)
    (hmem : (name, (2 ^ w - 1) <<< s, off) ∈ layout)
    (hnd : (layout.map (fun f => f.1)).Nodup)
    (hv : v < 2 ^ w)
    (hlen : off + maskBytes ((2 ^ w - 1) <<< s) ≤ len) :
    lookupD (Unpack layout (Pack layout [(name, v)] (List.replicate len 0)))
      name 0 = v := by
  rw [pack_single name _ off v layout _ hnd hmem]
  rw [unpack_lookup name _ off layout _ hnd hmem]
  exact unpackField_packField w s off v len hv hlen

/-- C4 witness: a 12-bit field shifted by 4 bits straddling bytes 1-2
round-trips the value 0xabc. -/
theorem c4_witness :
    lookupD (Unpack [("opcode", 0xff, 0), ("flags", 0xfff0, 1)]
        (Pack [("opcode", 0xff, 0), ("flags", 0xfff0, 1)] [("flags", 0xabc)]
          (List.replicate 3 0))) "flags" 0 = 0xabc := by
  exact c4_unpack_pack_roundtrip
    [("opcode", 0xff, 0), ("flags", 0xfff0, 1)] "flags" 12 4 1 0xabc 3
    (by decide) (by decide) (by decide) (by decide)

/-- C5: the spec's end-to-end scenario — packing the
`PositionToElement` layout with opcode 0x2B, transport address 0x10,
destination 0x20 and invert 1 into a 9-byte zero buffer yields exactly
the bytes 2B 00 00 10 00 20 00 00 01, and unpacking that buffer
returns exactly the original value mapping. -/
theorem c5_position_to_element_scenario :
    Pack PositionToElement.cdbBits PositionToElement.scenarioValues
        (List.replicate 9 0)
      = [0x2B, 0x00, 0x00, 0x10, 0x00, 0x20, 0x00, 0x00, 0x01] ∧
    Unpack PositionToElement.cdbBits
        [0x2B, 0x00, 0x00, 0x10, 0x00, 0x20, 0x00, 0x00, 0x01]
      = PositionToElement.scenarioValues := by
  constructor <;> decide

/-- C9: packing a value wider than a field's bit-width silently keeps
only the low-order bits selected by the mask — packing `v` equals
packing `v mod 2 ^ w` for a `w`-bit field — and in particular packing
0x1FF into an 8-bit field at offset 0 of a 1-byte zero buffer yields
the byte 0xFF. -/
theorem c9_truncation (w s off v : Nat) (buf : List Nat) :
    packField ((2 ^ w - 1) <<< s) off v buf
      = packField ((2 ^ w - 1) <<< s) off (v % 2 ^ w) buf ∧
    packField 0xff 0 0x1ff [0x00] = [0xff] := by
  refine ⟨?_, by decide⟩
  unfold packField
  rcases Nat.eq_zero_or_pos w with hw | hw
  · subst hw
    simp [Nat.shiftLeft_eq]
  · have hodd : (2 ^ w - 1) % 2 = 1 := by
      have hdvd : 2 ∣ 2 ^ w := dvd_pow_self 2 (by omega)
      have h2 : 2 ≤ 2 ^ w := by
        calc 2 = 2 ^ 1 := rfl
        _ ≤ 2 ^ w := Nat.pow_le_pow_right (by norm_num) hw
      omega
    have hsh : maskShift ((2 ^ w - 1) <<< s) = s := by
      rw [Nat.shiftLeft_eq]
      exact maskShift_mul_two_pow _ _ hodd
    have hmr : ((2 ^ w - 1) <<< s) >>> s = 2 ^ w - 1 := Nat.shiftLeft_shiftRight _ _
    rw [hsh, hmr, Nat.and_pow_two_sub_one_eq_mod, Nat.and_pow_two_sub_one_eq_mod,
      Nat.mod_mod_of_dvd v (dvd_refl _)]
